import Mathlib

/-!
# github-mirror: reconciliation and migration engine

A shallow embedding of `main.go` (GitHub → Gitea mirror tool) together with
theorems about its paginated collectors, ownership filter, ordered reconciler
and migration driver.

Modelling conventions.

* `[]*github.Repository` and `[]*gitea.Repository` are Lean lists of records.
* Fields of `github.Repository` that the program dereferences unconditionally
  (`*repo.Name`, `*repo.Fork`, `*repo.Owner.Login`, `*repo.Private`,
  `*repo.CloneURL`) are plain values; the one field the program tests against
  `nil` (`Description`) is an `Option`.
* The two list calls are replaced by the sequence of answers the service gives,
  consumed one answer per call, and each collector records the requests it
  issues; the create-mirror call is an arbitrary transformer of the state of
  the destination server.
* `log.Printf` lines that carry data are recorded as an explicit list.
* Names are Lean strings compared with `=` and `<`; Go compares the bytes of the two
  strings, which orders valid UTF-8 text the same way. The proofs use only that `<` is a
  strict total order.
* `sort.Sort`, configuration, log-file and client set-up are outside the model; the
  statements about sorted input take sortedness as a hypothesis.
-/

namespace GithubMirror

/-! ## Data model -/

/-- The part of `github.User` read by the program. -/
structure GHUser where
  Login : String
deriving DecidableEq

/-- The part of `github.Repository` read by the program. -/
structure GHRepository where
  Name : String
  Owner : GHUser
  Fork : Bool
  Private : Bool
  Description : Option String
  CloneURL : String
deriving DecidableEq

/-- The part of `gitea.Repository` read by the program (`ID` only tells records
with equal names apart). -/
structure GTRepository where
  ID : Nat
  Name : String
deriving DecidableEq

/-- Sortable GitHub repository list (`type GHRepositoryList []*github.Repository`). -/
abbrev GHRepositoryList := List GHRepository

/-- Sortable Gitea repository list (`type GTRepositoryList []*gitea.Repository`). -/
abbrev GTRepositoryList := List GTRepository

/-! ## Ordered reconciler: `computeRepositoriesToMigrate` -/

/-- Everything the loop of `computeRepositoriesToMigrate` produces: the slice
`toMigrate`, the Gitea names printed by the two
`"Gitea Repository %s is missing from GitHub, leaving it there..."` log calls,
and three instrumentation counters: `comparisons` counts the comparisons of a
GitHub name with a Gitea name that are evaluated (the `==` of
`*gh[ghi].Name == gt[gti].Name` and, when it is false, the `<` of
`*gh[ghi].Name < gt[gti].Name`), `compareSteps` the passes of the loop that reach
that `if`/`else if` chain, and `iterations` the times the body of the `for` is
entered. -/
structure ReconcileState where
  toMigrate : GHRepositoryList
  logged : List String
  comparisons : Nat
  compareSteps : Nat
  iterations : Nat
deriving DecidableEq

/-- The `for { ... }` loop of `computeRepositoriesToMigrate`, from loop state
`(ghi, gti, toMigrate)`. -/
def reconcileLoop (gh : GHRepositoryList) (gt : GTRepositoryList)
    (ghi gti : Nat) (st : ReconcileState) : ReconcileState :=
  if hgh : ghi ≥ gh.length then
    -- No more GitHub repos to process...
    if hgt : gti ≥ gt.length then
      -- and no more Gitea repos to process !
      { st with iterations := st.iterations + 1 }
    else
      reconcileLoop gh gt ghi (gti + 1)
        { st with logged := st.logged ++ [gt[gti].Name], iterations := st.iterations + 1 }
  else if hgt : gti ≥ gt.length then
    -- No more Gitea repos to process
    { st with toMigrate := st.toMigrate ++ gh.drop ghi, iterations := st.iterations + 1 }
  else if gh[ghi].Name = gt[gti].Name then
    -- `==` evaluated, true
    reconcileLoop gh gt (ghi + 1) (gti + 1)
      { st with comparisons := st.comparisons + 1, compareSteps := st.compareSteps + 1,
                iterations := st.iterations + 1 }
  else if gh[ghi].Name < gt[gti].Name then
    -- `==` evaluated, false; `<` evaluated, true.
    -- On GitHub but not yet on Gitea. Migrate it.
    reconcileLoop gh gt (ghi + 1) gti
      { st with toMigrate := st.toMigrate ++ [gh[ghi]], comparisons := st.comparisons + 2,
                compareSteps := st.compareSteps + 1, iterations := st.iterations + 1 }
  else
    -- `==` evaluated, false; `<` evaluated, false.
    -- On Gitea but not anymore on GitHub: log and keep it there.
    reconcileLoop gh gt ghi (gti + 1)
      { st with logged := st.logged ++ [gt[gti].Name], comparisons := st.comparisons + 2,
                compareSteps := st.compareSteps + 1, iterations := st.iterations + 1 }
termination_by (gh.length - ghi) + (gt.length - gti)
decreasing_by all_goals (simp_wf; omega)

/-- The whole body of `computeRepositoriesToMigrate`, with its log lines and the
instrumentation counters. -/
def computeRepositoriesToMigrateRun (gh : GHRepositoryList) (gt : GTRepositoryList) :
    ReconcileState :=
  if gh.length = 0 then
    { toMigrate := gh, logged := [], comparisons := 0, compareSteps := 0, iterations := 0 }
  else if gt.length = 0 then
    { toMigrate := gh, logged := [], comparisons := 0, compareSteps := 0, iterations := 0 }
  else
    reconcileLoop gh gt 0 0
      { toMigrate := [], logged := [], comparisons := 0, compareSteps := 0, iterations := 0 }

/-- The value returned by `computeRepositoriesToMigrate`. -/
def computeRepositoriesToMigrate (gh : GHRepositoryList) (gt : GTRepositoryList) :
    GHRepositoryList :=
  (computeRepositoriesToMigrateRun gh gt).toMigrate

/-- The loop of `computeRepositoriesToMigrate` seen on the two unread suffixes
`gh[ghi:]` and `gt[gti:]` (proof device; `reconcileLoop_eq_suffix` relates it to
the index loop). -/
def reconcileSuffix : GHRepositoryList → GTRepositoryList → ReconcileState → ReconcileState
  | [], [], st => { st with iterations := st.iterations + 1 }
  | [], t :: ts, st =>
    reconcileSuffix [] ts
      { st with logged := st.logged ++ [t.Name], iterations := st.iterations + 1 }
  | g :: gs, [], st =>
    { st with toMigrate := st.toMigrate ++ g :: gs, iterations := st.iterations + 1 }
  | g :: gs, t :: ts, st =>
    if g.Name = t.Name then
      reconcileSuffix gs ts
        { st with comparisons := st.comparisons + 1, compareSteps := st.compareSteps + 1,
                  iterations := st.iterations + 1 }
    else if g.Name < t.Name then
      reconcileSuffix gs (t :: ts)
        { st with toMigrate := st.toMigrate ++ [g], comparisons := st.comparisons + 2,
                  compareSteps := st.compareSteps + 1, iterations := st.iterations + 1 }
    else
      reconcileSuffix (g :: gs) ts
        { st with logged := st.logged ++ [t.Name], comparisons := st.comparisons + 2,
                  compareSteps := st.compareSteps + 1, iterations := st.iterations + 1 }
termination_by gs ts => gs.length + ts.length

/-! ## Ownership filter: `filterGitHubRepositories` -/

/-- The source's `filterGitHubRepositories`: the `for _, repo := range ghRepos` loop appending
to `filteredRepos`. -/
def filterGitHubRepositories (ghRepos : GHRepositoryList) (ghUsername : String) :
    GHRepositoryList :=
  ghRepos.foldl
    (fun filteredRepos repo =>
      -- Mirror only repositories that the user owns and has not forked from someone else
      if !repo.Fork && repo.Owner.Login == ghUsername then filteredRepos ++ [repo]
      else filteredRepos)
    []

/-! ## Paginated collectors -/

/-- How a collector run ends: the function returns `allRepos`, the process dies in
`log.Fatal(err)`, or every scripted answer has been consumed and the next call is
still outstanding. -/
inductive ListOutcome (α : Type) where
  | returned (allRepos : List α)
  | fatal (msg : String)
  | awaiting (allRepos : List α)
deriving DecidableEq

/-- One run of a collector: how it ended, the options of every list call it issued (in
order), and the total time spent in `time.Sleep`, in seconds. -/
structure CollectorRun (α ρ : Type) where
  outcome : ListOutcome α
  requests : List ρ
  sleepSeconds : Nat
deriving DecidableEq

/-- The fields of `github.RepositoryListOptions` set by the program. -/
structure RepositoryListOptions where
  Page : Nat
  PerPage : Nat
deriving DecidableEq

/-- One answer `(repos, resp, err)` of `ghClient.Repositories.List`: a page with its
`resp.NextPage`, an error that is a `*github.RateLimitError`, or any other error. -/
inductive GHListResponse where
  | page (repos : List GHRepository) (NextPage : Nat)
  | rateLimitError
  | otherError (msg : String)
deriving DecidableEq

/-- The `for { ... }` loop of `listGitHubRepositories` against a scripted service: the head of
the script answers the call issued with the current `opt`. -/
def listGitHubLoop : List GHListResponse → RepositoryListOptions → List GHRepository →
    CollectorRun GHRepository RepositoryListOptions
  | [], opt, allRepos =>
    { outcome := .awaiting allRepos, requests := [opt], sleepSeconds := 0 }
  | .rateLimitError :: rest, opt, allRepos =>
    -- log, time.Sleep(60 * time.Second), continue
    let run := listGitHubLoop rest opt allRepos
    { run with requests := opt :: run.requests, sleepSeconds := 60 + run.sleepSeconds }
  | .otherError msg :: _, opt, _ =>
    { outcome := .fatal msg, requests := [opt], sleepSeconds := 0 }
  | .page repos NextPage :: rest, opt, allRepos =>
    if NextPage = 0 then
      { outcome := .returned (allRepos ++ repos), requests := [opt], sleepSeconds := 0 }
    else
      let run := listGitHubLoop rest { opt with Page := NextPage } (allRepos ++ repos)
      { run with requests := opt :: run.requests }

/-- The source's `listGitHubRepositories` (`PerPage: 100`, `Page` left at its zero value). -/
def listGitHubRepositories (script : List GHListResponse) :
    CollectorRun GHRepository RepositoryListOptions :=
  listGitHubLoop script { Page := 0, PerPage := 100 } []

/-- The fields of `gitea.ListReposOptions` set by the program. -/
structure ListReposOptions where
  Page : Nat
  PageSize : Nat
deriving DecidableEq

/-- One answer `(repos, err)` of `gtClient.ListMyRepos`. -/
inductive GTListResponse where
  | page (repos : List GTRepository)
  | error (msg : String)
deriving DecidableEq

/-- The `for { ... }` loop of `listGiteaRepositories` against a scripted service, from loop
state `(opt, page, allRepos)`. -/
def listGiteaLoop : List GTListResponse → ListReposOptions → Nat → List GTRepository →
    CollectorRun GTRepository ListReposOptions
  | [], opt, page, allRepos =>
    { outcome := .awaiting allRepos, requests := [{ opt with Page := page }], sleepSeconds := 0 }
  | .error msg :: _, opt, page, _ =>
    { outcome := .fatal msg, requests := [{ opt with Page := page }], sleepSeconds := 0 }
  | .page repos :: rest, opt, page, allRepos =>
    let opt : ListReposOptions := { opt with Page := page }
    if repos.length = 0 ∨ repos.length ≠ opt.PageSize then
      -- End of repository list
      { outcome := .returned (allRepos ++ repos), requests := [opt], sleepSeconds := 0 }
    else
      let run := listGiteaLoop rest opt (page + 1) (allRepos ++ repos)
      { run with requests := opt :: run.requests }

/-- The source's `listGiteaRepositories` (`PageSize: 50`, `page` starting at 1). -/
def listGiteaRepositories (script : List GTListResponse) :
    CollectorRun GTRepository ListReposOptions :=
  listGiteaLoop script { Page := 0, PageSize := 50 } 1 []

/-! ## Migration driver: `migrate` and the loop at the end of `main` -/

/-- The fields of `gitea.MigrateRepoOption` set by `migrate`. -/
structure MigrateRepoOption where
  CloneAddr : String
  AuthUsername : String
  AuthPassword : String
  UID : Int
  RepoName : String
  Mirror : Bool
  Private : Bool
  Description : String
deriving DecidableEq

/-- The destination's create-mirror operation `gtClient.MigrateRepo`, as a transformer of the
state `σ` of the destination server; the second component is `err` (`none` for `nil`). -/
abbrev MigrateRepoCall (σ : Type) := σ → MigrateRepoOption → σ × Option String

/-- The `migrationOptions` value built by `migrate`; `personalToken` is
`viper.GetString("GitHub.PersonalToken")` and `gtUserID` is `gtUser.ID`. -/
def migrationOptions (ghRepo : GHRepository) (personalToken : String) (gtUserID : Int) :
    MigrateRepoOption :=
  -- the description is an optional field
  let description : String :=
    match ghRepo.Description with
    | some d => d
    | none => ""
  { CloneAddr := ghRepo.CloneURL
    AuthUsername := ghRepo.Owner.Login
    AuthPassword := personalToken
    UID := gtUserID
    RepoName := ghRepo.Name
    Mirror := true
    Private := ghRepo.Private
    Description := description }

/-- The source's `migrate`: one `MigrateRepo` call, returning its error. -/
def migrate {σ : Type} (MigrateRepo : MigrateRepoCall σ) (personalToken : String)
    (gtUserID : Int) (ghRepo : GHRepository) (server : σ) : σ × Option String :=
  MigrateRepo server (migrationOptions ghRepo personalToken gtUserID)

/-- State of the migration loop of `main`: the destination server, the flag `ok`, and the
lines logged so far. -/
structure MigrationRun (σ : Type) where
  server : σ
  ok : Bool
  log : List String

/-- The `for _, repo := range toMigrate` loop of `main`. -/
def migrateLoop {σ : Type} (MigrateRepo : MigrateRepoCall σ) (personalToken : String)
    (gtUserID : Int) : GHRepositoryList → MigrationRun σ → MigrationRun σ
  | [], run => run
  | repo :: rest, run =>
    let log := run.log ++ ["Migrating " ++ repo.Name ++ "..."]
    match migrate MigrateRepo personalToken gtUserID repo run.server with
    | (server, some err) =>
      migrateLoop MigrateRepo personalToken gtUserID rest
        { server := server, ok := false,
          log := log ++ ["MigrateRepo: " ++ repo.Name ++ ": " ++ err] }
    | (server, none) =>
      migrateLoop MigrateRepo personalToken gtUserID rest
        { server := server, ok := run.ok, log := log }

/-- The migration phase of `main`: `var ok bool = true` followed by the loop. -/
def migrationPhase {σ : Type} (MigrateRepo : MigrateRepoCall σ) (personalToken : String)
    (gtUserID : Int) (toMigrate : GHRepositoryList) (server : σ) : MigrationRun σ :=
  migrateLoop MigrateRepo personalToken gtUserID toMigrate
    { server := server, ok := true, log := [] }

/-- Exit status of the process after the migration phase: `os.Exit(1)` when `!ok`, and a normal
return from `main` (status 0) otherwise. -/
def exitStatus {σ : Type} (run : MigrationRun σ) : Nat :=
  if !run.ok then 1 else 0

/-- Instrumented destination: behaves as `MigrateRepo` and appends every call, with the error it
returned, to a trace kept next to the server state. -/
def recording {σ : Type} (MigrateRepo : MigrateRepoCall σ) :
    MigrateRepoCall (σ × List (MigrateRepoOption × Option String)) :=
  fun st opt =>
    match MigrateRepo st.1 opt with
    | (server, err) => ((server, st.2 ++ [(opt, err)]), err)

/-! ## Vocabulary of the statements -/

/-- Names of a GitHub list, in list order. -/
def ghNames (gh : GHRepositoryList) : List String := gh.map GHRepository.Name

/-- Names of a Gitea list, in list order. -/
def gtNames (gt : GTRepositoryList) : List String := gt.map GTRepository.Name

/-- A list of names is strictly ascending. -/
def StrictAsc (names : List String) : Prop := names.Pairwise (· < ·)

instance (names : List String) : Decidable (StrictAsc names) := by
  unfold StrictAsc; infer_instance


/-- A page answered by the GitHub list call: its records and its `NextPage`. -/
structure GHPage where
  repos : List GHRepository
  NextPage : Nat
deriving DecidableEq

/-- A sequence of pages that ends the collection: every page but the last announces a next
page, the last one announces none. -/
def EndsCollection : List GHPage → Prop
  | [] => False
  | [p] => p.NextPage = 0
  | p :: q :: rest => p.NextPage ≠ 0 ∧ EndsCollection (q :: rest)

/-- The answers of the service when page responses are given in order, each one preceded by
the stated number of rate-limit errors. -/
def scriptWithRetries : List (Nat × GHPage) → List GHListResponse
  | [] => []
  | (n, p) :: rest =>
    List.replicate n GHListResponse.rateLimitError
      ++ GHListResponse.page p.repos p.NextPage :: scriptWithRetries rest

/-- The answers of the service when it never rate-limits. -/
def scriptOfPages (pages : List GHPage) : List GHListResponse :=
  pages.map (fun p => GHListResponse.page p.repos p.NextPage)

/-- The requests expected from `listGitHubRepositories` when the current page number is `cur`:
a page preceded by `n` rate-limit errors is requested `n + 1` times with the same page number,
and the page number then becomes that page's `NextPage`. -/
def expectedRequests : Nat → List (Nat × GHPage) → List RepositoryListOptions
  | _, [] => []
  | cur, (n, p) :: rest =>
    List.replicate (n + 1) { Page := cur, PerPage := 100 } ++ expectedRequests p.NextPage rest

/-- The number of list calls after which a collector run returned, if it returned. -/
def stoppedAfter {α ρ : Type} (run : CollectorRun α ρ) : Option Nat :=
  match run.outcome with
  | .returned _ => some run.requests.length
  | _ => none

/-- Page number `k` (counted from 1) is the first page of `pages` whose size satisfies `P`. -/
def IsFirstPageWhere (P : Nat → Bool) (pages : List (List GTRepository)) (k : Nat) : Prop :=
  1 ≤ k ∧ (pages[k - 1]?).map (fun p => P p.length) = some true ∧
    ∀ q ∈ pages.take (k - 1), P q.length = false

instance (P : Nat → Bool) (pages : List (List GTRepository)) (k : Nat) :
    Decidable (IsFirstPageWhere P pages k) := by
  unfold IsFirstPageWhere; infer_instance

/-- The answers of the Gitea service when it returns the given pages without error. -/
def giteaScript (pages : List (List GTRepository)) : List GTListResponse :=
  pages.map GTListResponse.page

/-! ## Example data -/

/-- A GitHub record with the given name (other fields fixed). -/
def ghNamed (n : String) : GHRepository :=
  { Name := n, Owner := { Login := "alice" }, Fork := false, Private := false,
    Description := none, CloneURL := "https://github.com/alice/" ++ n ++ ".git" }

/-- A Gitea record with the given name. -/
def gtNamed (n : String) : GTRepository :=
  { ID := 0, Name := n }

/-- Source of the example scenario: names `a`, `b`, `d`. -/
def ghExample : GHRepositoryList := [ghNamed "a", ghNamed "b", ghNamed "d"]

/-- Destination of the example scenario: names `b`, `c`. -/
def gtExample : GTRepositoryList := [gtNamed "b", gtNamed "c"]

/-- A two-record source, names `a`, `c`. -/
def ghInterleaved : GHRepositoryList := [ghNamed "a", ghNamed "c"]

/-- A one-record destination, name `b`, lying between the names of `ghInterleaved`. -/
def gtInterleaved : GTRepositoryList := [gtNamed "b"]

/-- A destination that rejects its second call and creates a mirror on every other call; its
state is the number of calls received and the names of the mirrors created. -/
def flakyServer : MigrateRepoCall (Nat × List String) :=
  fun st opt =>
    if st.1 = 1 then ((st.1 + 1, st.2), some "migration failed")
    else ((st.1 + 1, st.2 ++ [opt.RepoName]), none)

/-- Two pages, the first delayed by two rate-limit errors and the second by one. -/
def retriedPages : List (Nat × GHPage) :=
  [(2, { repos := [ghNamed "a", ghNamed "b"], NextPage := 2 }),
   (1, { repos := [ghNamed "d"], NextPage := 0 })]

/-- A single Gitea page holding 51 records. -/
def oversizedPage : List GTRepository := List.replicate 51 (gtNamed "r")

/-! ## The reconciler loop on suffixes -/

theorem reconcileLoop_eq_suffix (gh : GHRepositoryList) (gt : GTRepositoryList)
    (ghi gti : Nat) (st : ReconcileState) :
    reconcileLoop gh gt ghi gti st = reconcileSuffix (gh.drop ghi) (gt.drop gti) st := by
  induction ghi, gti, st using reconcileLoop.induct gh gt with
  | case1 ghi gti st hgh hgt =>
    rw [reconcileLoop, List.drop_eq_nil_of_le hgh, List.drop_eq_nil_of_le hgt, reconcileSuffix]
    simp [hgh, hgt]
  | case2 ghi gti st hgh hgt ih =>
    have hlt : gti < gt.length := by omega
    rw [reconcileLoop, List.drop_eq_nil_of_le hgh, List.drop_eq_getElem_cons hlt, reconcileSuffix]
    rw [List.drop_eq_nil_of_le hgh] at ih
    simp only [hgh, hgt, dite_true, dite_false]
    exact ih
  | case3 ghi gti st hgh hgt =>
    have hlt : ghi < gh.length := by omega
    rw [reconcileLoop, List.drop_eq_nil_of_le hgt]
    simp only [hgh, hgt, dite_true, dite_false]
    rw [List.drop_eq_getElem_cons hlt, reconcileSuffix]
  | case4 ghi gti st hgh hgt heq ih =>
    have hlt1 : ghi < gh.length := by omega
    have hlt2 : gti < gt.length := by omega
    rw [reconcileLoop, List.drop_eq_getElem_cons hlt1, List.drop_eq_getElem_cons hlt2,
      reconcileSuffix]
    simp only [hgh, hgt, heq, dite_false, if_true]
    exact ih
  | case5 ghi gti st hgh hgt heq hlt ih =>
    have hlt1 : ghi < gh.length := by omega
    have hlt2 : gti < gt.length := by omega
    rw [List.drop_eq_getElem_cons hlt2] at ih
    rw [reconcileLoop, List.drop_eq_getElem_cons hlt1, List.drop_eq_getElem_cons hlt2,
      reconcileSuffix]
    simp only [hgh, hgt, heq, hlt, dite_false, if_true, if_false]
    exact ih
  | case6 ghi gti st hgh hgt heq hlt ih =>
    have hlt1 : ghi < gh.length := by omega
    have hlt2 : gti < gt.length := by omega
    rw [List.drop_eq_getElem_cons hlt1] at ih
    rw [reconcileLoop, List.drop_eq_getElem_cons hlt1, List.drop_eq_getElem_cons hlt2,
      reconcileSuffix]
    simp only [hgh, hgt, heq, hlt, dite_false, if_false]
    exact ih

theorem strictAsc_cons {a : String} {l : List String} :
    StrictAsc (a :: l) ↔ (∀ b ∈ l, a < b) ∧ StrictAsc l := by
  unfold StrictAsc; exact List.pairwise_cons

theorem strictAsc_head_lt {a c : String} {l : List String} (h : StrictAsc (a :: l))
    (hc : c ∈ a :: l) : a ≤ c := by
  rcases List.mem_cons.mp hc with rfl | hc
  · exact le_refl _
  · exact le_of_lt ((strictAsc_cons.mp h).1 c hc)

theorem reconcileSuffix_toMigrate (gs : GHRepositoryList) (ts : GTRepositoryList)
    (st : ReconcileState) (hg : StrictAsc (ghNames gs)) (ht : StrictAsc (gtNames ts)) :
    (reconcileSuffix gs ts st).toMigrate
      = st.toMigrate ++ gs.filter (fun r => decide (r.Name ∉ gtNames ts)) := by
  induction gs, ts, st using reconcileSuffix.induct with
  | case1 st => simp [reconcileSuffix]
  | case2 t ts st ih =>
    rw [reconcileSuffix, ih hg (strictAsc_cons.mp ht).2]; simp
  | case3 g gs st => rw [reconcileSuffix]; simp [gtNames]
  | case4 g gs t ts st heq ih =>
    have hg2 := strictAsc_cons.mp hg
    have ht2 := strictAsc_cons.mp ht
    rw [reconcileSuffix, if_pos heq, ih hg2.2 ht2.2]
    have hmem : g.Name ∈ gtNames (t :: ts) := by simp [gtNames, heq]
    rw [List.filter_cons_of_neg (by simpa using hmem)]
    congr 1
    apply List.filter_congr
    intro r hr
    have hlt : t.Name < r.Name := heq ▸ hg2.1 r.Name (List.mem_map_of_mem _ hr)
    have hne : r.Name ≠ t.Name := ne_of_gt hlt
    simp [gtNames, hne]
  | case5 g gs t ts st heq hlt ih =>
    have hg2 := strictAsc_cons.mp hg
    rw [reconcileSuffix, if_neg heq, if_pos hlt, ih hg2.2 ht]
    have hnot : g.Name ∉ gtNames (t :: ts) := by
      intro hmem
      exact absurd (lt_of_lt_of_le hlt (strictAsc_head_lt ht hmem)) (lt_irrefl _)
    rw [List.filter_cons_of_pos (by simpa using hnot)]
    simp
  | case6 g gs t ts st heq hlt ih =>
    have ht2 := strictAsc_cons.mp ht
    rw [reconcileSuffix, if_neg heq, if_neg hlt, ih hg ht2.2]
    congr 1
    apply List.filter_congr
    intro r hr
    have hgt : t.Name < g.Name := lt_of_le_of_ne (not_lt.mp hlt) (Ne.symm heq)
    have hle : g.Name ≤ r.Name := strictAsc_head_lt hg (List.mem_map_of_mem _ hr)
    have hne : r.Name ≠ t.Name := ne_of_gt (lt_of_lt_of_le hgt hle)
    simp [gtNames, hne]

theorem reconcileSuffix_logged (gs : GHRepositoryList) (ts : GTRepositoryList)
    (st : ReconcileState) (hg : StrictAsc (ghNames gs)) (ht : StrictAsc (gtNames ts)) :
    (reconcileSuffix gs ts st).logged
      = st.logged ++ (gtNames ts).filter (fun n => decide (n ∉ ghNames gs)) := by
  induction gs, ts, st using reconcileSuffix.induct with
  | case1 st => simp [reconcileSuffix, gtNames]
  | case2 t ts st ih =>
    rw [reconcileSuffix, ih hg (strictAsc_cons.mp ht).2]; simp [gtNames, ghNames]
  | case3 g gs st => rw [reconcileSuffix]; simp [gtNames]
  | case4 g gs t ts st heq ih =>
    have hg2 := strictAsc_cons.mp hg
    have ht2 := strictAsc_cons.mp ht
    rw [reconcileSuffix, if_pos heq, ih hg2.2 ht2.2]
    have hmem : t.Name ∈ ghNames (g :: gs) := by simp [ghNames, heq]
    show _ = _ ++ List.filter _ (t.Name :: gtNames ts)
    rw [List.filter_cons_of_neg (by simpa using hmem)]
    congr 1
    apply List.filter_congr
    intro n hn
    have hlt : g.Name < n := heq ▸ ht2.1 n hn
    have hne : n ≠ g.Name := ne_of_gt hlt
    simp [ghNames, hne]
  | case5 g gs t ts st heq hlt ih =>
    have hg2 := strictAsc_cons.mp hg
    rw [reconcileSuffix, if_neg heq, if_pos hlt, ih hg2.2 ht]
    congr 1
    apply List.filter_congr
    intro n hn
    have hle : t.Name ≤ n := strictAsc_head_lt ht hn
    have hne : n ≠ g.Name := ne_of_gt (lt_of_lt_of_le hlt hle)
    simp [ghNames, hne]
  | case6 g gs t ts st heq hlt ih =>
    have ht2 := strictAsc_cons.mp ht
    rw [reconcileSuffix, if_neg heq, if_neg hlt, ih hg ht2.2]
    have hgt : t.Name < g.Name := lt_of_le_of_ne (not_lt.mp hlt) (Ne.symm heq)
    have hnot : t.Name ∉ ghNames (g :: gs) := by
      intro hmem
      exact absurd (lt_of_lt_of_le hgt (strictAsc_head_lt hg hmem)) (lt_irrefl _)
    show _ = _ ++ List.filter _ (t.Name :: gtNames ts)
    rw [List.filter_cons_of_pos (by simpa using hnot)]
    simp

theorem reconcileSuffix_compareSteps (gs : GHRepositoryList) (ts : GTRepositoryList)
    (st : ReconcileState) :
    (reconcileSuffix gs ts st).compareSteps ≤ st.compareSteps + (gs.length + ts.length) := by
  induction gs, ts, st using reconcileSuffix.induct with
  | case1 st => simp [reconcileSuffix]
  | case2 t ts st ih =>
    rw [reconcileSuffix]; refine le_trans ih ?_; simp only [List.length_cons, List.length_nil]; omega
  | case3 g gs st => rw [reconcileSuffix]; simp only; omega
  | case4 g gs t ts st heq ih =>
    rw [reconcileSuffix, if_pos heq]; refine le_trans ih ?_; simp only [List.length_cons]; omega
  | case5 g gs t ts st heq hlt ih =>
    rw [reconcileSuffix, if_neg heq, if_pos hlt]; refine le_trans ih ?_
    simp only [List.length_cons]; omega
  | case6 g gs t ts st heq hlt ih =>
    rw [reconcileSuffix, if_neg heq, if_neg hlt]; refine le_trans ih ?_
    simp only [List.length_cons]; omega

theorem reconcileSuffix_comparisons (gs : GHRepositoryList) (ts : GTRepositoryList)
    (st : ReconcileState) :
    (reconcileSuffix gs ts st).comparisons
      ≤ st.comparisons + 2 * (gs.length + ts.length) := by
  induction gs, ts, st using reconcileSuffix.induct with
  | case1 st => simp [reconcileSuffix]
  | case2 t ts st ih =>
    rw [reconcileSuffix]; refine le_trans ih ?_; simp only [List.length_cons, List.length_nil]; omega
  | case3 g gs st => rw [reconcileSuffix]; simp only; omega
  | case4 g gs t ts st heq ih =>
    rw [reconcileSuffix, if_pos heq]; refine le_trans ih ?_; simp only [List.length_cons]; omega
  | case5 g gs t ts st heq hlt ih =>
    rw [reconcileSuffix, if_neg heq, if_pos hlt]; refine le_trans ih ?_
    simp only [List.length_cons]; omega
  | case6 g gs t ts st heq hlt ih =>
    rw [reconcileSuffix, if_neg heq, if_neg hlt]; refine le_trans ih ?_
    simp only [List.length_cons]; omega

theorem reconcileSuffix_sublist (names : List String) (gs : GHRepositoryList)
    (ts : GTRepositoryList) (st : ReconcileState) (hts : ∀ n ∈ gtNames ts, n ∈ names) :
    ∃ r : GHRepositoryList, (reconcileSuffix gs ts st).toMigrate = st.toMigrate ++ r ∧
      r.Sublist gs ∧ (gs.filter (fun x => decide (x.Name ∉ names))).Sublist r := by
  induction gs, ts, st using reconcileSuffix.induct with
  | case1 st => exact ⟨[], by simp [reconcileSuffix]⟩
  | case2 t ts st ih =>
    obtain ⟨r, h1, h2, h3⟩ := ih (fun n hn => hts n (by simp [gtNames] at hn ⊢; exact Or.inr hn))
    exact ⟨r, by rw [reconcileSuffix, h1], h2, h3⟩
  | case3 g gs st =>
    exact ⟨g :: gs, by rw [reconcileSuffix], List.Sublist.refl _, List.filter_sublist _⟩
  | case4 g gs t ts st heq ih =>
    obtain ⟨r, h1, h2, h3⟩ := ih (fun n hn => hts n (by simp [gtNames] at hn ⊢; exact Or.inr hn))
    refine ⟨r, by rw [reconcileSuffix, if_pos heq, h1], h2.cons g, ?_⟩
    have hmem : g.Name ∈ names := hts _ (by simp [gtNames, heq])
    rw [List.filter_cons_of_neg (by simpa using hmem)]
    exact h3
  | case5 g gs t ts st heq hlt ih =>
    obtain ⟨r, h1, h2, h3⟩ := ih hts
    refine ⟨g :: r, by rw [reconcileSuffix, if_neg heq, if_pos hlt, h1]; simp, h2.cons₂ g, ?_⟩
    by_cases hmem : g.Name ∈ names
    · rw [List.filter_cons_of_neg (by simpa using hmem)]
      exact h3.cons g
    · rw [List.filter_cons_of_pos (by simpa using hmem)]
      exact h3.cons₂ g
  | case6 g gs t ts st heq hlt ih =>
    obtain ⟨r, h1, h2, h3⟩ := ih (fun n hn => hts n (by simp [gtNames] at hn ⊢; exact Or.inr hn))
    exact ⟨r, by rw [reconcileSuffix, if_neg heq, if_neg hlt, h1], h2, h3⟩

theorem computeRun_of_nonempty {gh : GHRepositoryList} {gt : GTRepositoryList}
    (hgh : gh ≠ []) (hgt : gt ≠ []) :
    computeRepositoriesToMigrateRun gh gt
      = reconcileSuffix gh gt
          { toMigrate := [], logged := [], comparisons := 0, compareSteps := 0, iterations := 0 } := by
  unfold computeRepositoriesToMigrateRun
  rw [if_neg (by simpa using hgh), if_neg (by simpa using hgt), reconcileLoop_eq_suffix]
  simp

theorem reconcileSuffix_iterations (gs : GHRepositoryList) (ts : GTRepositoryList)
    (st : ReconcileState) :
    (reconcileSuffix gs ts st).iterations ≤ st.iterations + (gs.length + ts.length) + 1 := by
  induction gs, ts, st using reconcileSuffix.induct with
  | case1 st => simp [reconcileSuffix]
  | case2 t ts st ih =>
    rw [reconcileSuffix]; refine le_trans ih ?_; simp only [List.length_cons, List.length_nil]; omega
  | case3 g gs st => rw [reconcileSuffix]; simp only; omega
  | case4 g gs t ts st heq ih =>
    rw [reconcileSuffix, if_pos heq]; refine le_trans ih ?_; simp only [List.length_cons]; omega
  | case5 g gs t ts st heq hlt ih =>
    rw [reconcileSuffix, if_neg heq, if_pos hlt]; refine le_trans ih ?_
    simp only [List.length_cons]; omega
  | case6 g gs t ts st heq hlt ih =>
    rw [reconcileSuffix, if_neg heq, if_neg hlt]; refine le_trans ih ?_
    simp only [List.length_cons]; omega

/-! ## Ordered reconciler: the claims -/

/-- C1. For source and destination lists that are each strictly ascending by name,
`computeRepositoriesToMigrate gh gt` is `gh` with exactly the records removed whose name is the
name of some record of `gt`, in the original order; hence every name of the output is a name of
`gh` that is no name of `gt`, and every record of `gh` whose name is absent from `gt` is in the
output. -/
theorem computeRepositoriesToMigrate_eq_filter (gh : GHRepositoryList) (gt : GTRepositoryList)
    (hgh : StrictAsc (ghNames gh)) (hgt : StrictAsc (gtNames gt)) :
    computeRepositoriesToMigrate gh gt = gh.filter (fun r => decide (r.Name ∉ gtNames gt)) ∧
      (∀ n ∈ ghNames (computeRepositoriesToMigrate gh gt), n ∈ ghNames gh ∧ n ∉ gtNames gt) ∧
      (∀ r ∈ gh, r.Name ∉ gtNames gt → r ∈ computeRepositoriesToMigrate gh gt) := by
  have key : computeRepositoriesToMigrate gh gt
      = gh.filter (fun r => decide (r.Name ∉ gtNames gt)) := by
    by_cases h1 : gh = []
    · subst h1; simp [computeRepositoriesToMigrate, computeRepositoriesToMigrateRun]
    by_cases h2 : gt = []
    · subst h2
      simp [computeRepositoriesToMigrate, computeRepositoriesToMigrateRun, gtNames]
    · rw [computeRepositoriesToMigrate, computeRun_of_nonempty h1 h2,
        reconcileSuffix_toMigrate gh gt _ hgh hgt]
      simp
  refine ⟨key, ?_, ?_⟩
  · intro n hn
    rw [key] at hn
    simp only [ghNames, List.mem_map, List.mem_filter, decide_eq_true_eq] at hn ⊢
    obtain ⟨r, ⟨hr, hnot⟩, rfl⟩ := hn
    exact ⟨⟨r, hr, rfl⟩, hnot⟩
  · intro r hr hnot
    rw [key]
    exact List.mem_filter.mpr ⟨hr, by simpa using hnot⟩

/-- C1, the example scenario: source names `a, b, d` and destination names `b, c` give the
records named `a, d`. -/
theorem computeRepositoriesToMigrate_eq_filter_witness :
    StrictAsc (ghNames ghExample) ∧ StrictAsc (gtNames gtExample) ∧
      computeRepositoriesToMigrate ghExample gtExample = [ghNamed "a", ghNamed "d"] :=
  have h1 : StrictAsc (ghNames ghExample) := by
    simp +decide [StrictAsc, ghNames, ghExample, ghNamed]
  have h2 : StrictAsc (gtNames gtExample) := by
    simp +decide [StrictAsc, gtNames, gtExample, gtNamed]
  ⟨h1, h2, (computeRepositoriesToMigrate_eq_filter ghExample gtExample h1 h2).1.trans
    (by simp +decide [ghExample, gtExample, gtNames, ghNamed, gtNamed])⟩

/-- C9 as stated fails: on source names `a, c` and destination name `b` the loop evaluates
`a == b`, `a < b`, `c == b` and `c < b`, four comparisons of a source name with a destination
name, which is more than `len(gh) + len(gt) = 3`. -/
theorem computeRepositoriesToMigrate_comparisons_exceed_sum :
    (computeRepositoriesToMigrateRun ghInterleaved gtInterleaved).comparisons = 4 ∧
      ghInterleaved.length + gtInterleaved.length = 3 ∧
      ¬ ((computeRepositoriesToMigrateRun ghInterleaved gtInterleaved).comparisons
          ≤ ghInterleaved.length + gtInterleaved.length) := by
  have h : (computeRepositoriesToMigrateRun ghInterleaved gtInterleaved).comparisons = 4 := by
    simp +decide [computeRepositoriesToMigrateRun, reconcileLoop, ghInterleaved, gtInterleaved,
      ghNamed, gtNamed]
  refine ⟨h, rfl, ?_⟩
  rw [h]
  decide

/-- C9, amended. For arbitrary lists (sorted or not, of any sizes) the loop of
`computeRepositoriesToMigrate` terminates: the model is a total function whose `for` body is
entered at most `len(gh) + len(gt) + 1` times; the passes that compare a source name with a
destination name number at most `len(gh) + len(gt)`, and the comparisons evaluated (`==`, and
`<` when `==` is false) number at most `2 * (len(gh) + len(gt))`. -/
theorem computeRepositoriesToMigrate_comparisons_le_twice (gh : GHRepositoryList)
    (gt : GTRepositoryList) :
    (computeRepositoriesToMigrateRun gh gt).compareSteps ≤ gh.length + gt.length ∧
      (computeRepositoriesToMigrateRun gh gt).comparisons ≤ 2 * (gh.length + gt.length) ∧
      (computeRepositoriesToMigrateRun gh gt).iterations ≤ gh.length + gt.length + 1 := by
  by_cases h1 : gh = []
  · subst h1; simp [computeRepositoriesToMigrateRun]
  by_cases h2 : gt = []
  · subst h2; simp [computeRepositoriesToMigrateRun]
  · rw [computeRun_of_nonempty h1 h2]
    refine ⟨?_, ?_, ?_⟩
    · simpa using reconcileSuffix_compareSteps gh gt
        { toMigrate := [], logged := [], comparisons := 0, compareSteps := 0, iterations := 0 }
    · simpa using reconcileSuffix_comparisons gh gt
        { toMigrate := [], logged := [], comparisons := 0, compareSteps := 0, iterations := 0 }
    · simpa using reconcileSuffix_iterations gh gt
        { toMigrate := [], logged := [], comparisons := 0, compareSteps := 0, iterations := 0 }

/-- C10. With no sortedness or uniqueness assumption, the output of
`computeRepositoriesToMigrate gh gt` is a subsequence of `gh` (same records, same relative
order) of which the records of `gh` whose name is no name of `gt` form a subsequence: a
repository that is really missing is never omitted. -/
theorem computeRepositoriesToMigrate_never_omits (gh : GHRepositoryList)
    (gt : GTRepositoryList) :
    (computeRepositoriesToMigrate gh gt).Sublist gh ∧
      (gh.filter (fun r => decide (r.Name ∉ gtNames gt))).Sublist
        (computeRepositoriesToMigrate gh gt) ∧
      (∀ r ∈ gh, r.Name ∉ gtNames gt → r ∈ computeRepositoriesToMigrate gh gt) := by
  have key : (computeRepositoriesToMigrate gh gt).Sublist gh ∧
      (gh.filter (fun r => decide (r.Name ∉ gtNames gt))).Sublist
        (computeRepositoriesToMigrate gh gt) := by
    by_cases h1 : gh = []
    · subst h1; simp [computeRepositoriesToMigrate, computeRepositoriesToMigrateRun]
    by_cases h2 : gt = []
    · subst h2
      simp [computeRepositoriesToMigrate, computeRepositoriesToMigrateRun, gtNames]
    · obtain ⟨r, hr, hsub, hfil⟩ := reconcileSuffix_sublist (gtNames gt) gh gt
        { toMigrate := [], logged := [], comparisons := 0, compareSteps := 0, iterations := 0 } (fun _ h => h)
      rw [computeRepositoriesToMigrate, computeRun_of_nonempty h1 h2, hr]
      exact ⟨by simpa using hsub, by simpa using hfil⟩
  refine ⟨key.1, key.2, ?_⟩
  intro r hr hnot
  exact key.2.subset (List.mem_filter.mpr ⟨hr, by simpa using hnot⟩)

/-- Supporting fact for C8: on a non-empty strictly ascending source (and a strictly ascending
destination) the names logged as missing from GitHub are exactly the names of `gt` that are no
name of `gh`, in the order of `gt`. -/
theorem computeRepositoriesToMigrate_logged_of_ne_nil (gh : GHRepositoryList)
    (gt : GTRepositoryList) (hne : gh ≠ [])
    (hgh : StrictAsc (ghNames gh)) (hgt : StrictAsc (gtNames gt)) :
    (computeRepositoriesToMigrateRun gh gt).logged
      = (gtNames gt).filter (fun n => decide (n ∉ ghNames gh)) := by
  by_cases h2 : gt = []
  · subst h2
    simp [computeRepositoriesToMigrateRun, gtNames]
  · rw [computeRun_of_nonempty hne h2, reconcileSuffix_logged gh gt _ hgh hgt]
    simp

/-- C8 at an empty source. The lists `[]` and `[c]` are strictly ascending and the only
destination name, `c`, equals no source name, yet `computeRepositoriesToMigrate` logs nothing:
the guard `if len(gh) == 0 { return gh }` returns before the loop, whose own
source-exhausted branch logs `c` when started on the same lists. -/
theorem computeRepositoriesToMigrate_empty_source_logs_nothing :
    StrictAsc (ghNames []) ∧ StrictAsc (gtNames [gtNamed "c"]) ∧
      (gtNames [gtNamed "c"]).filter (fun n => decide (n ∉ ghNames [])) = ["c"] ∧
      (computeRepositoriesToMigrateRun [] [gtNamed "c"]).logged = [] ∧
      (reconcileLoop [] [gtNamed "c"] 0 0
        { toMigrate := [], logged := [], comparisons := 0, compareSteps := 0, iterations := 0 }).logged = ["c"] := by
  refine ⟨?_, ?_, ?_, ?_, ?_⟩
  · simp [StrictAsc, ghNames]
  · simp [StrictAsc, gtNames]
  · simp [gtNames, ghNames, gtNamed]
  · simp [computeRepositoriesToMigrateRun]
  · simp [reconcileLoop, gtNamed]

/-! ## Ownership filter: the claim -/

theorem filter_foldl_eq (u : String) (l acc : GHRepositoryList) :
    l.foldl (fun filteredRepos repo =>
        if !repo.Fork && repo.Owner.Login == u then filteredRepos ++ [repo] else filteredRepos)
      acc
      = acc ++ l.filter (fun r => decide (r.Owner.Login = u ∧ r.Fork = false)) := by
  induction l generalizing acc with
  | nil => simp
  | cons r rest ih =>
    rw [List.foldl_cons, ih]
    by_cases hf : r.Fork = true <;> by_cases ho : r.Owner.Login = u <;>
      simp [hf, ho, List.filter_cons]

/-- C4. `filterGitHubRepositories ghRepos ghUsername` is exactly the sublist of `ghRepos`, in
the same relative order, of the records whose owner login is `ghUsername` and whose fork flag
is false; so a record of `ghRepos` survives iff it is a non-fork with matching owner. -/
theorem filterGitHubRepositories_eq_filter (ghRepos : GHRepositoryList) (ghUsername : String) :
    filterGitHubRepositories ghRepos ghUsername
        = ghRepos.filter (fun r => decide (r.Owner.Login = ghUsername ∧ r.Fork = false)) ∧
      (filterGitHubRepositories ghRepos ghUsername).Sublist ghRepos ∧
      (∀ r ∈ ghRepos, (r ∈ filterGitHubRepositories ghRepos ghUsername ↔
        (r.Owner.Login = ghUsername ∧ r.Fork = false))) := by
  have key : filterGitHubRepositories ghRepos ghUsername
      = ghRepos.filter (fun r => decide (r.Owner.Login = ghUsername ∧ r.Fork = false)) := by
    unfold filterGitHubRepositories
    rw [filter_foldl_eq]; simp
  refine ⟨key, ?_, ?_⟩
  · rw [key]; exact List.filter_sublist _
  · intro r hr
    rw [key, List.mem_filter]
    simp [hr]

/-! ## Migration driver: the claims -/

/-- C7. For every source record (and every destination, token and user id) `migrate` issues
one create-mirror call whose request has clone address the record's clone URL, auth user name
the record's owner login, repository name the record's name, private flag the record's private
flag, mirror flag true, and description the record's description when present and the empty
string when absent. -/
theorem migrate_request_fields {σ : Type} (MigrateRepo : MigrateRepoCall σ)
    (personalToken : String) (gtUserID : Int) (ghRepo : GHRepository) (server : σ)
    (trace : List (MigrateRepoOption × Option String)) :
    ∃ req : MigrateRepoOption,
      (migrate (recording MigrateRepo) personalToken gtUserID ghRepo (server, trace)).1.2
          = trace ++ [(req, (MigrateRepo server req).2)] ∧
        req.CloneAddr = ghRepo.CloneURL ∧
        req.AuthUsername = ghRepo.Owner.Login ∧
        req.RepoName = ghRepo.Name ∧
        req.Private = ghRepo.Private ∧
        req.Mirror = true ∧
        req.Description = ghRepo.Description.getD "" := by
  refine ⟨migrationOptions ghRepo personalToken gtUserID, rfl, rfl, rfl, rfl, rfl, rfl, ?_⟩
  cases h : ghRepo.Description <;> simp [migrationOptions, h]

theorem migrateLoop_recording_calls {σ : Type} (MigrateRepo : MigrateRepoCall σ)
    (personalToken : String) (gtUserID : Int) (toMigrate : GHRepositoryList)
    (run : MigrationRun (σ × List (MigrateRepoOption × Option String))) :
    (migrateLoop (recording MigrateRepo) personalToken gtUserID toMigrate run).server.2.map
        Prod.fst
      = run.server.2.map Prod.fst
          ++ toMigrate.map (fun r => migrationOptions r personalToken gtUserID) := by
  induction toMigrate generalizing run with
  | nil => simp [migrateLoop]
  | cons repo rest ih =>
    rw [migrateLoop]
    simp only [migrate, recording]
    cases h : (MigrateRepo run.server.1 (migrationOptions repo personalToken gtUserID)).2 with
    | none => simp only [h]; rw [ih]; simp
    | some err => simp only [h]; rw [ih]; simp

theorem migrateLoop_recording_ok {σ : Type} (MigrateRepo : MigrateRepoCall σ)
    (personalToken : String) (gtUserID : Int) (toMigrate : GHRepositoryList)
    (run : MigrationRun (σ × List (MigrateRepoOption × Option String)))
    (hinv : run.ok = true ↔ ∀ c ∈ run.server.2, c.2 = none) :
    (migrateLoop (recording MigrateRepo) personalToken gtUserID toMigrate run).ok = true ↔
      ∀ c ∈ (migrateLoop (recording MigrateRepo) personalToken gtUserID toMigrate run).server.2,
        c.2 = none := by
  induction toMigrate generalizing run with
  | nil => simpa [migrateLoop] using hinv
  | cons repo rest ih =>
    rw [migrateLoop]
    simp only [migrate, recording]
    cases h : (MigrateRepo run.server.1 (migrationOptions repo personalToken gtUserID)).2 with
    | none =>
      simp only [h]
      apply ih
      simp only [List.mem_append, List.mem_singleton]
      constructor
      · intro hok c hc
        rcases hc with hc | rfl
        · exact hinv.mp hok c hc
        · rfl
      · intro hall
        exact hinv.mpr (fun c hc => hall c (Or.inl hc))
    | some err =>
      simp only [h]
      apply ih
      simp only [List.mem_append, List.mem_singleton]
      constructor
      · intro hok; exact absurd hok (by simp)
      · intro hall
        have := hall (migrationOptions repo personalToken gtUserID, some err) (Or.inr rfl)
        simp at this

/-- The instrumentation does not change what the loop does to the destination or to `ok`. -/
theorem migrateLoop_recording_faithful {σ : Type} (MigrateRepo : MigrateRepoCall σ)
    (personalToken : String) (gtUserID : Int) (toMigrate : GHRepositoryList)
    (run : MigrationRun (σ × List (MigrateRepoOption × Option String))) (plain : MigrationRun σ)
    (hs : run.server.1 = plain.server) (hok : run.ok = plain.ok) (hlog : run.log = plain.log) :
    (migrateLoop (recording MigrateRepo) personalToken gtUserID toMigrate run).server.1
        = (migrateLoop MigrateRepo personalToken gtUserID toMigrate plain).server ∧
      (migrateLoop (recording MigrateRepo) personalToken gtUserID toMigrate run).ok
        = (migrateLoop MigrateRepo personalToken gtUserID toMigrate plain).ok ∧
      (migrateLoop (recording MigrateRepo) personalToken gtUserID toMigrate run).log
        = (migrateLoop MigrateRepo personalToken gtUserID toMigrate plain).log := by
  induction toMigrate generalizing run plain with
  | nil => simp [migrateLoop, hs, hok, hlog]
  | cons repo rest ih =>
    rw [migrateLoop, migrateLoop]
    simp only [migrate, recording, hs, hlog]
    cases h : MigrateRepo plain.server (migrationOptions repo personalToken gtUserID) with
    | mk server err =>
      cases err with
      | none => exact ih _ _ rfl hok rfl
      | some e => exact ih _ _ rfl rfl rfl

/-- C2. Once the migration phase of `main` is reached, for every list to migrate and every
behaviour of the create-mirror operation: one call is made per repository, the process exits
with status 0 iff every call returned no error (in particular for the empty list), and with
a nonzero status iff at least one call returned an error. -/
theorem exitStatus_zero_iff_all_succeeded {σ : Type} (MigrateRepo : MigrateRepoCall σ)
    (personalToken : String) (gtUserID : Int) (toMigrate : GHRepositoryList) (server : σ) :
    (migrationPhase (recording MigrateRepo) personalToken gtUserID toMigrate
        (server, [])).server.2.length = toMigrate.length ∧
      (exitStatus (migrationPhase (recording MigrateRepo) personalToken gtUserID toMigrate
          (server, [])) = 0 ↔
        ∀ c ∈ (migrationPhase (recording MigrateRepo) personalToken gtUserID toMigrate
          (server, [])).server.2, c.2 = none) ∧
      (exitStatus (migrationPhase (recording MigrateRepo) personalToken gtUserID toMigrate
          (server, [])) ≠ 0 ↔
        ∃ c ∈ (migrationPhase (recording MigrateRepo) personalToken gtUserID toMigrate
          (server, [])).server.2, c.2 ≠ none) ∧
      exitStatus (migrationPhase (recording MigrateRepo) personalToken gtUserID []
          (server, [])) = 0 ∧
      exitStatus (migrationPhase MigrateRepo personalToken gtUserID toMigrate server)
        = exitStatus (migrationPhase (recording MigrateRepo) personalToken gtUserID toMigrate
            (server, [])) := by
  have hok := migrateLoop_recording_ok MigrateRepo personalToken gtUserID toMigrate
    { server := (server, []), ok := true, log := [] } (by simp)
  have hcalls := congrArg List.length
    (migrateLoop_recording_calls MigrateRepo personalToken gtUserID toMigrate
      { server := (server, []), ok := true, log := [] })
  have hfaith := migrateLoop_recording_faithful MigrateRepo personalToken gtUserID toMigrate
    { server := (server, []), ok := true, log := [] }
    { server := server, ok := true, log := [] } rfl rfl rfl
  have hzero : ∀ r : MigrationRun (σ × List (MigrateRepoOption × Option String)),
      exitStatus r = 0 ↔ r.ok = true := by
    intro r; unfold exitStatus; cases r.ok <;> simp
  refine ⟨by simpa using hcalls, ?_, ?_, ?_, ?_⟩
  · rw [hzero]; exact hok
  · rw [Ne, hzero, migrationPhase, hok]
    push_neg
    rfl
  · simp [migrationPhase, migrateLoop, exitStatus]
  · unfold exitStatus migrationPhase
    rw [hfaith.2.1]

/-- C3. The migration loop of `main` calls create-mirror exactly once for each record of the
list, in list order, with the request built from that record, whatever errors the calls
return: a failure never aborts or skips the remaining items. -/
theorem migrationPhase_calls_every_item {σ : Type} (MigrateRepo : MigrateRepoCall σ)
    (personalToken : String) (gtUserID : Int) (toMigrate : GHRepositoryList) (server : σ) :
    (migrationPhase (recording MigrateRepo) personalToken gtUserID toMigrate
        (server, [])).server.2.map Prod.fst
      = toMigrate.map (fun r => migrationOptions r personalToken gtUserID) := by
  have h := migrateLoop_recording_calls MigrateRepo personalToken gtUserID toMigrate
    { server := (server, []), ok := true, log := [] }
  simpa [migrationPhase] using h

/-- C3, three items of which the second fails: all three requests are issued in order, the
first and third repositories are mirrored on the destination, and the run exits with
status 1. -/
theorem migrationPhase_calls_every_item_witness :
    (migrationPhase (recording flakyServer) "token" 7 ghExample
        ((0, []), [])).server.2.map Prod.fst
      = [migrationOptions (ghNamed "a") "token" 7, migrationOptions (ghNamed "b") "token" 7,
          migrationOptions (ghNamed "d") "token" 7] ∧
      (migrationPhase (recording flakyServer) "token" 7 ghExample
        ((0, []), [])).server.2.map Prod.snd = [none, some "migration failed", none] ∧
      (migrationPhase (recording flakyServer) "token" 7 ghExample ((0, []), [])).server.1
        = (3, ["a", "d"]) ∧
      exitStatus (migrationPhase (recording flakyServer) "token" 7 ghExample ((0, []), []))
        = 1 :=
  ⟨migrationPhase_calls_every_item flakyServer "token" 7 ghExample (0, []),
    by simp [migrationPhase, migrateLoop, migrate, recording, flakyServer, ghExample,
      migrationOptions, ghNamed],
    by simp [migrationPhase, migrateLoop, migrate, recording, flakyServer, ghExample,
      migrationOptions, ghNamed],
    by simp [migrationPhase, migrateLoop, migrate, recording, flakyServer, ghExample,
      exitStatus]⟩

/-! ## Paginated collectors: the claims -/

theorem listGitHubLoop_rateLimited (n : Nat) (rest : List GHListResponse)
    (opt : RepositoryListOptions) (allRepos : List GHRepository) :
    listGitHubLoop (List.replicate n GHListResponse.rateLimitError ++ rest) opt allRepos
      = { outcome := (listGitHubLoop rest opt allRepos).outcome
          requests := List.replicate n opt ++ (listGitHubLoop rest opt allRepos).requests
          sleepSeconds := 60 * n + (listGitHubLoop rest opt allRepos).sleepSeconds } := by
  induction n with
  | zero => simp
  | succ n ih =>
    rw [List.replicate_succ, List.cons_append, listGitHubLoop, ih]
    simp only [List.replicate_succ, List.cons_append, CollectorRun.mk.injEq, true_and]
    omega

theorem listGitHubLoop_withRetries (ps : List (Nat × GHPage))
    (h : EndsCollection (ps.map Prod.snd)) (cur : Nat) (allRepos : List GHRepository) :
    listGitHubLoop (scriptWithRetries ps) { Page := cur, PerPage := 100 } allRepos
      = { outcome := .returned (allRepos ++ (ps.map (fun x => x.2.repos)).flatten)
          requests := expectedRequests cur ps
          sleepSeconds := 60 * (ps.map Prod.fst).sum } := by
  induction ps generalizing cur allRepos with
  | nil => exact absurd h (by simp [EndsCollection])
  | cons x rest ih =>
    obtain ⟨n, p⟩ := x
    rw [scriptWithRetries, listGitHubLoop_rateLimited, listGitHubLoop]
    cases rest with
    | nil =>
      have h0 : p.NextPage = 0 := by simpa [EndsCollection] using h
      simp [h0, expectedRequests, List.replicate_succ']
    | cons y rest2 =>
      have hp : p.NextPage ≠ 0 ∧ EndsCollection ((y :: rest2).map Prod.snd) := by
        simpa [EndsCollection] using h
      rw [if_neg hp.1, ih hp.2]
      simp only [expectedRequests, List.map_cons, List.flatten_cons, List.sum_cons,
        List.append_assoc, List.replicate_succ', CollectorRun.mk.injEq, true_and,
        List.singleton_append]
      omega

theorem scriptOfPages_eq_withRetries (ps : List (Nat × GHPage)) :
    scriptOfPages (ps.map Prod.snd) = scriptWithRetries (ps.map (fun x => (0, x.2))) := by
  induction ps with
  | nil => rfl
  | cons x rest ih =>
    have ih2 : List.map (fun p => GHListResponse.page p.repos p.NextPage)
        (List.map Prod.snd rest) = scriptWithRetries (List.map (fun x => (0, x.2)) rest) := ih
    simp [scriptOfPages, scriptWithRetries, ih2]

/-- Retries are invisible in the outcome for every script, also one that ends in a fatal error
or runs out of answers: dropping the rate-limit errors from the answers leaves the outcome
unchanged. -/
theorem listGitHubLoop_outcome_filter (script : List GHListResponse)
    (opt : RepositoryListOptions) (allRepos : List GHRepository) :
    (listGitHubLoop script opt allRepos).outcome
      = (listGitHubLoop (script.filter (fun r => decide (r ≠ GHListResponse.rateLimitError)))
          opt allRepos).outcome := by
  induction script generalizing opt allRepos with
  | nil => simp [listGitHubLoop]
  | cons r rest ih =>
    cases r with
    | rateLimitError => simpa [listGitHubLoop] using ih opt allRepos
    | otherError msg => simp [listGitHubLoop]
    | page repos next =>
      by_cases hn : next = 0
      · simp [listGitHubLoop, hn]
      · simpa [listGitHubLoop, hn] using ih _ _

/-- C5. For every sequence of page responses that ends the collection, with any number of
rate-limit errors inserted before each page response, `listGitHubRepositories` returns the same
collection as for the sequence without them, namely the concatenation of the pages in arrival
order; every rate-limit error makes it request the same page number again (a page preceded by
`n` errors is requested `n + 1` times, and only a page response moves on to its `NextPage`),
sleeping 60 seconds per error. -/
theorem listGitHubRepositories_retry_transparent (ps : List (Nat × GHPage))
    (h : EndsCollection (ps.map Prod.snd)) :
    (listGitHubRepositories (scriptWithRetries ps)).outcome
        = (listGitHubRepositories (scriptOfPages (ps.map Prod.snd))).outcome ∧
      (listGitHubRepositories (scriptWithRetries ps)).outcome
        = .returned ((ps.map (fun x => x.2.repos)).flatten) ∧
      (listGitHubRepositories (scriptWithRetries ps)).requests = expectedRequests 0 ps ∧
      (listGitHubRepositories (scriptWithRetries ps)).sleepSeconds
        = 60 * (ps.map Prod.fst).sum := by
  have h1 := listGitHubLoop_withRetries ps h 0 []
  have h2 := listGitHubLoop_withRetries (ps.map (fun x => (0, x.2)))
    (by simpa [Function.comp_def] using h) 0 []
  unfold listGitHubRepositories
  rw [scriptOfPages_eq_withRetries, h1, h2]
  simp [Function.comp_def]

/-- C5, two pages delayed by two and by one rate-limit error: the run returns the three
records of the two pages in arrival order, having requested page 0 three times and page 2
twice. -/
theorem listGitHubRepositories_retry_transparent_witness :
    EndsCollection (retriedPages.map Prod.snd) ∧
      scriptWithRetries retriedPages
        = [.rateLimitError, .rateLimitError, .page [ghNamed "a", ghNamed "b"] 2,
            .rateLimitError, .page [ghNamed "d"] 0] ∧
      (listGitHubRepositories (scriptWithRetries retriedPages)).outcome
        = .returned [ghNamed "a", ghNamed "b", ghNamed "d"] ∧
      (listGitHubRepositories (scriptWithRetries retriedPages)).requests
        = [⟨0, 100⟩, ⟨0, 100⟩, ⟨0, 100⟩, ⟨2, 100⟩, ⟨2, 100⟩] :=
  have hends : EndsCollection (retriedPages.map Prod.snd) := by
    simp [retriedPages, EndsCollection]
  ⟨hends, by simp [retriedPages, scriptWithRetries],
    (listGitHubRepositories_retry_transparent retriedPages hends).2.1.trans
      (by simp [retriedPages]),
    (listGitHubRepositories_retry_transparent retriedPages hends).2.2.1.trans
      (by simp [retriedPages, expectedRequests])⟩

theorem isFirstPageWhere_cons_of_pos (P : Nat → Bool) (p : List GTRepository)
    (rest : List (List GTRepository)) (k : Nat) (hP : P p.length = true) :
    IsFirstPageWhere P (p :: rest) k ↔ k = 1 := by
  constructor
  · rintro ⟨h1, _, h3⟩
    rcases k with _ | _ | n
    · omega
    · rfl
    · have := h3 p (by simp)
      rw [hP] at this
      exact absurd this (by simp)
  · rintro rfl
    exact ⟨le_refl _, by simp [hP], by simp⟩

theorem isFirstPageWhere_cons_of_neg (P : Nat → Bool) (p : List GTRepository)
    (rest : List (List GTRepository)) (k : Nat) (hP : P p.length = false) :
    IsFirstPageWhere P (p :: rest) k ↔ ∃ j, k = j + 1 ∧ IsFirstPageWhere P rest j := by
  constructor
  · rintro ⟨h1, h2, h3⟩
    rcases k with _ | _ | n
    · omega
    · simp [hP] at h2
    · refine ⟨n + 1, rfl, by omega, by simpa using h2, ?_⟩
      intro q hq
      exact h3 q (by simp only [Nat.add_sub_cancel, List.take_succ_cons, List.mem_cons] at hq ⊢
                     exact Or.inr hq)
  · rintro ⟨j, rfl, h1, h2, h3⟩
    obtain ⟨n, rfl⟩ : ∃ n, j = n + 1 := ⟨j - 1, by omega⟩
    refine ⟨by omega, by simpa using h2, ?_⟩
    intro q hq
    simp only [Nat.add_sub_cancel, List.take_succ_cons, List.mem_cons] at hq h3
    rcases hq with rfl | hq
    · exact hP
    · exact h3 q hq

theorem listGiteaLoop_cons_full (p : List GTRepository) (rest : List (List GTRepository))
    (cur start : Nat) (allRepos : List GTRepository) (hp : p.length = 50) :
    listGiteaLoop (giteaScript (p :: rest)) { Page := cur, PageSize := 50 } start allRepos
      = { outcome := (listGiteaLoop (giteaScript rest) { Page := start, PageSize := 50 }
            (start + 1) (allRepos ++ p)).outcome
          requests := { Page := start, PageSize := 50 } ::
            (listGiteaLoop (giteaScript rest) { Page := start, PageSize := 50 } (start + 1)
              (allRepos ++ p)).requests
          sleepSeconds := (listGiteaLoop (giteaScript rest) { Page := start, PageSize := 50 }
            (start + 1) (allRepos ++ p)).sleepSeconds } := by
  simp [giteaScript, listGiteaLoop, hp]

theorem listGiteaLoop_cons_short (p : List GTRepository) (rest : List (List GTRepository))
    (cur start : Nat) (allRepos : List GTRepository) (hp : p.length ≠ 50) :
    listGiteaLoop (giteaScript (p :: rest)) { Page := cur, PageSize := 50 } start allRepos
      = { outcome := .returned (allRepos ++ p)
          requests := [{ Page := start, PageSize := 50 }]
          sleepSeconds := 0 } := by
  simp [giteaScript, listGiteaLoop, hp]

theorem stoppedAfter_cons {α ρ : Type} (o : ListOutcome α) (x : ρ) (reqs : List ρ) (t : Nat) :
    stoppedAfter { outcome := o, requests := x :: reqs, sleepSeconds := t }
      = (stoppedAfter { outcome := o, requests := reqs, sleepSeconds := t }).map (· + 1) := by
  cases o <;> simp [stoppedAfter]

theorem listGiteaLoop_stoppedAfter (pages : List (List GTRepository)) (cur start : Nat)
    (allRepos : List GTRepository) (k : Nat) :
    stoppedAfter (listGiteaLoop (giteaScript pages) { Page := cur, PageSize := 50 } start
        allRepos) = some k ↔
      IsFirstPageWhere (fun n => decide (n ≠ 50)) pages k := by
  induction pages generalizing cur start allRepos k with
  | nil => simp [giteaScript, listGiteaLoop, stoppedAfter, IsFirstPageWhere]
  | cons p rest ih =>
    by_cases hp : p.length = 50
    · rw [isFirstPageWhere_cons_of_neg _ _ _ _ (by simp [hp]),
        listGiteaLoop_cons_full p rest cur start allRepos hp, stoppedAfter_cons]
      constructor
      · intro h
        obtain ⟨j, hj, rfl⟩ := Option.map_eq_some'.mp h
        exact ⟨j, rfl, (ih start (start + 1) (allRepos ++ p) j).mp hj⟩
      · rintro ⟨j, rfl, hj⟩
        have := (ih start (start + 1) (allRepos ++ p) j).mpr hj
        exact Option.map_eq_some'.mpr ⟨j, this, rfl⟩
    · rw [isFirstPageWhere_cons_of_pos _ _ _ _ (by simp [hp]),
        listGiteaLoop_cons_short p rest cur start allRepos hp]
      simp only [stoppedAfter, List.length_singleton, Option.some.injEq]
      exact eq_comm

theorem listGiteaLoop_outcome (pages : List (List GTRepository)) (cur start : Nat)
    (allRepos : List GTRepository) :
    (listGiteaLoop (giteaScript pages) { Page := cur, PageSize := 50 } start allRepos).outcome
        = (match stoppedAfter (listGiteaLoop (giteaScript pages)
              { Page := cur, PageSize := 50 } start allRepos) with
          | some k => .returned (allRepos ++ (pages.take k).flatten)
          | none => .awaiting (allRepos ++ pages.flatten)) ∧
      (listGiteaLoop (giteaScript pages) { Page := cur, PageSize := 50 } start allRepos).requests
        = (List.range' start (listGiteaLoop (giteaScript pages)
              { Page := cur, PageSize := 50 } start allRepos).requests.length).map
            (fun i => { Page := i, PageSize := 50 }) := by
  induction pages generalizing cur start allRepos with
  | nil => simp [giteaScript, listGiteaLoop, stoppedAfter]
  | cons p rest ih =>
    by_cases hp : p.length = 50
    · obtain ⟨ih1, ih2⟩ := ih start (start + 1) (allRepos ++ p)
      rw [listGiteaLoop_cons_full p rest cur start allRepos hp, stoppedAfter_cons]
      rcases hr : listGiteaLoop (giteaScript rest) { Page := start, PageSize := 50 }
        (start + 1) (allRepos ++ p) with ⟨o, reqs, t⟩
      rw [hr] at ih1 ih2
      simp only at ih1 ih2 ⊢
      constructor
      · cases ho : stoppedAfter ({ outcome := o, requests := reqs, sleepSeconds := t } :
            CollectorRun GTRepository ListReposOptions) with
        | none => rw [ho] at ih1; simpa using ih1
        | some j => rw [ho] at ih1; simpa using ih1
      · simp only [List.length_cons, List.range'_succ, List.map_cons]
        rw [← ih2]
    · rw [listGiteaLoop_cons_short p rest cur start allRepos hp]
      simp [stoppedAfter]

/-- C6 as stated fails: when the first page holds 51 records (more than the requested 50),
`listGiteaRepositories` stops after that page, although it is not a page whose size is smaller
than the requested page size. -/
theorem listGiteaRepositories_stops_on_oversized_page :
    oversizedPage.length = 51 ∧
      stoppedAfter (listGiteaRepositories (giteaScript [oversizedPage])) = some 1 ∧
      ¬ IsFirstPageWhere (fun n => decide (n < 50)) [oversizedPage] 1 := by
  refine ⟨by simp [oversizedPage], ?_, ?_⟩
  · simp [listGiteaRepositories, giteaScript, listGiteaLoop, stoppedAfter, oversizedPage]
  · simp [IsFirstPageWhere, oversizedPage]

/-- C6, amended. For every sequence of pages returned without error for page numbers
1, 2, 3, ..., `listGiteaRepositories` (page size 50) stops after page `k` iff page `k` is the
first page whose size differs from 50; when it stops after page `k` it returns the
concatenation of pages `1..k` in arrival order (and is still asking when no such page has
arrived), and the pages it requests are numbered 1, 2, 3, ... with page size 50. -/
theorem listGiteaRepositories_stops_at_first_short_page (pages : List (List GTRepository))
    (k : Nat) :
    (stoppedAfter (listGiteaRepositories (giteaScript pages)) = some k ↔
        IsFirstPageWhere (fun n => decide (n ≠ 50)) pages k) ∧
      (listGiteaRepositories (giteaScript pages)).outcome
        = (match stoppedAfter (listGiteaRepositories (giteaScript pages)) with
          | some j => .returned ((pages.take j).flatten)
          | none => .awaiting pages.flatten) ∧
      (listGiteaRepositories (giteaScript pages)).requests
        = (List.range' 1 (listGiteaRepositories (giteaScript pages)).requests.length).map
            (fun i => { Page := i, PageSize := 50 }) := by
  unfold listGiteaRepositories
  refine ⟨listGiteaLoop_stoppedAfter pages 0 1 [] k, ?_, (listGiteaLoop_outcome pages 0 1 []).2⟩
  simpa using (listGiteaLoop_outcome pages 0 1 []).1

end GithubMirror
